import Mathlib

/-!
Shallow embedding of the chat server core (`src/server/server.js`).

JavaScript `Map` objects are modelled as association lists with
JS `Map` semantics (`set` replaces the value of an existing key in place,
otherwise appends at the end; `delete` removes the key's entry; insertion
order is preserved).  JS `Set` objects are modelled as duplicate-free lists
preserving insertion order.  `uuidv4()` is modelled by a fresh-id counter
carried in the server state, and timestamps (`new Date().toISOString()`)
are modelled as natural numbers supplied with each event.
-/

namespace Chat

/-- JS `Map.get`: the value stored under `k`, if present. -/
def mapGet (m : List (String × α)) (k : String) : Option α :=
  (m.find? (fun p => p.1 == k)).map (fun p => p.2)

/-- JS `Map.has`. -/
def mapHas (m : List (String × α)) (k : String) : Bool :=
  (mapGet m k).isSome

/-- JS `Map.set`: replace the value of an existing key in place, otherwise
append the new entry at the end. -/
def mapSet : List (String × α) → String → α → List (String × α)
  | [], k, v => [(k, v)]
  | p :: rest, k, v => if p.1 == k then (k, v) :: rest else p :: mapSet rest k v

/-- JS `Map.delete`: remove the entry of `k`, if present. -/
def mapDelete : List (String × α) → String → List (String × α)
  | [], _ => []
  | p :: rest, k => if p.1 == k then rest else p :: mapDelete rest k

/-- Keys of an association list are pairwise distinct (JS `Map` invariant). -/
def keysNodup (m : List (String × α)) : Prop :=
  (m.map (fun p => p.1)).Nodup

/-- JS `Set.add` on the list model: append if absent. -/
def setAdd (s : List String) (x : String) : List String :=
  if x ∈ s then s else s ++ [x]

/-- JS `Set.delete` on the list model. -/
def setDelete (s : List String) (x : String) : List String :=
  s.erase x

/-- JS `String.prototype.trim`: strip leading and trailing whitespace.
Modelled directly over the character list so that it evaluates inside the
kernel. -/
def jsTrim (s : String) : String :=
  ⟨((s.data.dropWhile Char.isWhitespace).reverse.dropWhile
      Char.isWhitespace).reverse⟩

/-! ### Basic lemmas about the map model -/

theorem mapGet_nil (k : String) : mapGet ([] : List (String × α)) k = none := rfl

theorem mapGet_cons (p : String × α) (rest : List (String × α)) (k : String) :
    mapGet (p :: rest) k = if p.1 = k then some p.2 else mapGet rest k := by
  by_cases hp : p.1 = k
  · simp [mapGet, hp]
  · simp [mapGet, hp]

theorem mapSet_cons (p : String × α) (rest : List (String × α)) (k : String) (v : α) :
    mapSet (p :: rest) k v =
      if p.1 = k then (k, v) :: rest else p :: mapSet rest k v := by
  by_cases hp : p.1 = k <;> simp [mapSet, hp]

theorem mapDelete_cons (p : String × α) (rest : List (String × α)) (k : String) :
    mapDelete (p :: rest) k = if p.1 = k then rest else p :: mapDelete rest k := by
  by_cases hp : p.1 = k <;> simp [mapDelete, hp]

theorem mapGet_mapSet_self (m : List (String × α)) (k : String) (v : α) :
    mapGet (mapSet m k v) k = some v := by
  induction m with
  | nil => simp [mapSet, mapGet_cons, mapGet_nil]
  | cons p rest ih =>
      rw [mapSet_cons]
      by_cases h : p.1 = k
      · simp [h, mapGet_cons]
      · simp [h, mapGet_cons, ih]

theorem keysNodup_cons (p : String × α) (rest : List (String × α)) :
    keysNodup (p :: rest) ↔ p.1 ∉ rest.map (fun q => q.1) ∧ keysNodup rest := by
  simp only [keysNodup, List.map_cons, List.nodup_cons]

theorem mapGet_mapSet_ne (m : List (String × α)) (k k' : String) (v : α)
    (h : k' ≠ k) : mapGet (mapSet m k v) k' = mapGet m k' := by
  have hne : ¬ (k = k') := fun hh => h hh.symm
  induction m with
  | nil =>
      show mapGet ((k, v) :: []) k' = mapGet [] k'
      rw [mapGet_cons]
      simp [hne, mapGet_nil]
  | cons p rest ih =>
      rw [mapSet_cons]
      by_cases hp : p.1 = k
      · rw [if_pos hp, mapGet_cons, mapGet_cons, hp]
        simp only [hne, if_false]
      · rw [if_neg hp, mapGet_cons, mapGet_cons, ih]

theorem mapGet_mem (m : List (String × α)) (k : String) (v : α)
    (h : mapGet m k = some v) : (k, v) ∈ m := by
  induction m with
  | nil => simp [mapGet_nil] at h
  | cons p rest ih =>
      rw [mapGet_cons] at h
      by_cases hp : p.1 = k
      · rw [if_pos hp] at h
        have hpv : p = (k, v) := by
          obtain ⟨a, b⟩ := p
          simp only at hp
          simp only [Option.some.injEq] at h
          rw [hp, h]
        rw [hpv]
        exact List.mem_cons_self _ _
      · rw [if_neg hp] at h
        exact List.mem_cons_of_mem _ (ih h)

theorem mapGet_mapDelete_ne (m : List (String × α)) (k k' : String)
    (h : k' ≠ k) : mapGet (mapDelete m k) k' = mapGet m k' := by
  have hne : ¬ (k = k') := fun hh => h hh.symm
  induction m with
  | nil => rfl
  | cons p rest ih =>
      rw [mapDelete_cons]
      by_cases hp : p.1 = k
      · rw [if_pos hp, mapGet_cons, hp]
        simp only [hne, if_false]
      · rw [if_neg hp, mapGet_cons, mapGet_cons, ih]

theorem mapHas_iff_mem_keys (m : List (String × α)) (k : String) :
    mapHas m k = true ↔ k ∈ m.map (fun p => p.1) := by
  constructor
  · intro h
    rcases hfind : m.find? (fun q => q.1 == k) with _ | q
    · simp [mapHas, mapGet, hfind] at h
    · have hq : q.1 = k := by simpa using List.find?_some hfind
      exact hq ▸ List.mem_map_of_mem (fun r => r.1) (List.mem_of_find?_eq_some hfind)
  · intro h
    rcases List.mem_map.mp h with ⟨q, hq, hq1⟩
    rcases hfind : m.find? (fun r => r.1 == k) with _ | r
    · exfalso
      have := List.find?_eq_none.mp hfind q hq
      simp [hq1] at this
    · simp [mapHas, mapGet, hfind]

theorem mapGet_mapDelete_self (m : List (String × α)) (k : String)
    (hnd : keysNodup m) : mapGet (mapDelete m k) k = none := by
  induction m with
  | nil => rfl
  | cons p rest ih =>
      have h1 := (keysNodup_cons p rest).mp hnd
      rw [mapDelete_cons]
      by_cases hp : p.1 = k
      · rw [if_pos hp]
        cases hres : mapGet rest k with
        | none => rfl
        | some v =>
            exfalso
            have hhas : mapHas rest k = true := by rw [mapHas, hres]; rfl
            exact h1.1 (hp ▸ (mapHas_iff_mem_keys rest k).mp hhas)
      · rw [if_neg hp, mapGet_cons, if_neg hp]
        exact ih h1.2

theorem keys_mapSet (m : List (String × α)) (k : String) (v : α) :
    (mapSet m k v).map (fun p => p.1) =
      if mapHas m k then m.map (fun p => p.1) else m.map (fun p => p.1) ++ [k] := by
  induction m with
  | nil => simp [mapSet, mapHas, mapGet_nil]
  | cons p rest ih =>
      rw [mapSet_cons]
      by_cases hp : p.1 = k
      · have : mapHas (p :: rest) k = true :=
          (mapHas_iff_mem_keys _ _).mpr (by simp [hp])
        simp [hp, this]
      · have hhas : mapHas (p :: rest) k = mapHas rest k := by
          by_cases hh : mapHas rest k = true
          · rw [hh]
            exact (mapHas_iff_mem_keys _ _).mpr
              (List.mem_cons_of_mem _ ((mapHas_iff_mem_keys _ _).mp hh))
          · have hr' : mapHas rest k = false := by
              cases hcase : mapHas rest k
              · rfl
              · exact absurd hcase hh
            have hl : mapHas (p :: rest) k = false := by
              cases hcase : mapHas (p :: rest) k
              · rfl
              · exfalso
                rcases List.mem_cons.mp ((mapHas_iff_mem_keys _ _).mp hcase) with h | h
                · exact hp h.symm
                · exact hh ((mapHas_iff_mem_keys _ _).mpr h)
            rw [hl, hr']
        rw [if_neg hp]
        simp only [List.map_cons, ih, hhas]
        by_cases hh : mapHas rest k <;> simp [hh]

theorem keysNodup_mapSet (m : List (String × α)) (k : String) (v : α)
    (hnd : keysNodup m) : keysNodup (mapSet m k v) := by
  unfold keysNodup
  rw [keys_mapSet]
  by_cases hh : mapHas m k
  · simpa [hh] using hnd
  · have hkmem : k ∉ m.map (fun p => p.1) := by
      intro hmem
      rw [(mapHas_iff_mem_keys m k).mpr hmem] at hh
      exact hh rfl
    have hh' : mapHas m k = false := by
      cases hcase : mapHas m k
      · rfl
      · exact absurd hcase hh
    rw [hh', if_neg (by simp)]
    rw [List.nodup_append]
    refine ⟨hnd, List.nodup_singleton _, ?_⟩
    intro a ha hak
    rw [List.mem_singleton] at hak
    exact hkmem (hak ▸ ha)

theorem mapDelete_subset (m : List (String × α)) (k : String) (q : String × α)
    (h : q ∈ mapDelete m k) : q ∈ m := by
  induction m with
  | nil => exact h
  | cons p rest ih =>
      rw [mapDelete_cons] at h
      by_cases hp : p.1 = k
      · rw [if_pos hp] at h
        exact List.mem_cons_of_mem _ h
      · rw [if_neg hp] at h
        rcases List.mem_cons.mp h with h' | h'
        · simp [h']
        · exact List.mem_cons_of_mem _ (ih h')

theorem keysNodup_mapDelete (m : List (String × α)) (k : String)
    (hnd : keysNodup m) : keysNodup (mapDelete m k) := by
  induction m with
  | nil => exact hnd
  | cons p rest ih =>
      have h1 := (keysNodup_cons p rest).mp hnd
      rw [mapDelete_cons]
      by_cases hp : p.1 = k
      · rw [if_pos hp]
        exact h1.2
      · rw [if_neg hp]
        have hrest : keysNodup (mapDelete rest k) := ih h1.2
        have hmem : p.1 ∉ (mapDelete rest k).map (fun q => q.1) := by
          intro hmem
          rcases List.mem_map.mp hmem with ⟨q, hq, hq1⟩
          exact h1.1 (hq1 ▸ List.mem_map_of_mem (fun r => r.1) (mapDelete_subset rest k q hq))
        exact (keysNodup_cons p _).mpr ⟨hmem, hrest⟩

theorem mapGet_of_mem_nodup (m : List (String × α)) (k : String) (v : α)
    (hnd : keysNodup m) (hmem : (k, v) ∈ m) : mapGet m k = some v := by
  induction m with
  | nil => simp at hmem
  | cons p rest ih =>
      have h1 := (keysNodup_cons p rest).mp hnd
      rw [mapGet_cons]
      rcases List.mem_cons.mp hmem with h | h
      · rw [← h]
        simp
      · by_cases hp : p.1 = k
        · exfalso
          exact h1.1 (hp ▸ (show k ∈ rest.map (fun r => r.1) from
            List.mem_map.mpr ⟨(k, v), h, rfl⟩))
        · rw [if_neg hp]
          exact ih h1.2 h

/-! ### Data model (server.js lines 24-38, 72-129, 262-280) -/

/-- `MAX_ROOM_MESSAGES` (server.js line 37). -/
def MAX_ROOM_MESSAGES : Nat := 250

/-- `MAX_PRIVATE_MESSAGES` (server.js line 38). -/
def MAX_PRIVATE_MESSAGES : Nat := 250

/-- A chat message (the object built by `buildMessage`, server.js lines 262-280).
`reactions` models the JS `Map` from emoji to a `Set` of usernames;
`deliveredTo`/`readBy` model JS `Set`s of usernames. -/
structure Message where
  id : String
  roomId : String
  sender : String
  senderId : String
  body : String
  timestamp : Nat
  attachments : List String
  isSystem : Bool
  isPrivate : Bool
  reactions : List (String × List String)
  deliveredTo : List String
  readBy : List String
  tempId : Option String
deriving Repr, DecidableEq

/-- A room (the object built by `createRoom`, server.js lines 81-102).
`members` holds socket ids, `typing` holds usernames. -/
structure Room where
  id : String
  name : String
  description : String
  createdAt : Nat
  createdBy : String
  messages : List Message
  members : List String
  typing : List String
deriving Repr, DecidableEq

/-- A private thread (built by `ensurePrivateThread`, server.js lines 108-121). -/
structure Thread where
  id : String
  participants : List String
  messages : List Message
  createdAt : Nat
deriving Repr, DecidableEq

/-- A user record (built in the `user_join` handler, server.js lines 406-413). -/
structure UserRec where
  id : String
  username : String
  status : String
  activeRoom : String
  rooms : List String
  lastSeen : Nat
deriving Repr, DecidableEq

/-! ### Message log operations (server.js lines 216-260) -/

/-- `trimMessages` (server.js lines 216-220): drop from the head while the
log exceeds `max` (`collection.splice(0, collection.length - max)`). -/
def trimMessages (collection : List α) (max : Nat) : List α :=
  if collection.length > max then collection.drop (collection.length - max)
  else collection

/-- `addMessageToRoom` (server.js lines 222-225): push then trim. -/
def addMessageToRoom (room : Room) (message : Message) : Room :=
  { room with messages := trimMessages (room.messages ++ [message]) MAX_ROOM_MESSAGES }

/-- `addMessageToThread` (server.js lines 227-230): push then trim. -/
def addMessageToThread (thread : Thread) (message : Message) : Thread :=
  { thread with messages := trimMessages (thread.messages ++ [message]) MAX_PRIVATE_MESSAGES }

/-- `registerDelivered` (server.js lines 232-238). -/
def registerDelivered (message : Message) (username : String) : Message :=
  { message with deliveredTo := setAdd message.deliveredTo username }

/-- `registerRead` (server.js lines 240-246). -/
def registerRead (message : Message) (username : String) : Message :=
  { message with readBy := setAdd message.readBy username }

/-- `toggleReaction` (server.js lines 248-260).  `setWith` (lines 123-129)
first inserts an empty user set when the emoji key is absent; the toggle then
deletes the user (removing the emoji key if the set becomes empty) or adds it. -/
def toggleReaction (message : Message) (emoji username : String) : Message :=
  let userSet := (mapGet message.reactions emoji).getD []
  let reactions :=
    if mapHas message.reactions emoji then message.reactions
    else message.reactions ++ [(emoji, [])]
  if username ∈ userSet then
    let newSet := userSet.erase username
    if newSet.isEmpty then { message with reactions := mapDelete reactions emoji }
    else { message with reactions := mapSet reactions emoji newSet }
  else
    { message with reactions := mapSet reactions emoji (userSet ++ [username]) }

/-- `makeThreadKey` (server.js line 106):
`[a, b].sort((x, y) => x.localeCompare(y)).join('::')`.
A two-element JS sort keeps the order when the comparator is `<= 0`;
`localeCompare` is modelled by the lexicographic order on strings
(the spec: "sorting the two participant usernames lexicographically"). -/
def makeThreadKey (a b : String) : String :=
  if a ≤ b then a ++ "::" ++ b else b ++ "::" ++ a

/-! ### Lemmas about the bounded log (for claim C1) -/

theorem trimMessages_append_one (l : List α) (x : α) (m : Nat) (h : l.length ≤ m) :
    trimMessages (l ++ [x]) m = (l ++ [x]).drop (l.length + 1 - m) := by
  unfold trimMessages
  split
  · congr 1
    simp
  · rename_i hle
    simp only [List.length_append, List.length_cons, List.length_nil, Nat.not_lt] at hle
    have h0 : l.length + 1 - m = 0 := by omega
    rw [h0, List.drop_zero]

theorem trimMessages_append_one_length (l : List α) (x : α) (m : Nat) (h : l.length ≤ m) :
    (trimMessages (l ++ [x]) m).length ≤ m := by
  rw [trimMessages_append_one l x m h]
  simp
  omega

/-- Folding append-then-trim over a sequence of messages keeps exactly the
most recent `m` elements of the concatenated history. -/
theorem foldl_trim_append (m : Nat) (msgs l : List α) (h : l.length ≤ m) :
    msgs.foldl (fun acc x => trimMessages (acc ++ [x]) m) l
      = (l ++ msgs).drop (l.length + msgs.length - m) := by
  induction msgs generalizing l with
  | nil =>
      simp only [List.foldl_nil, List.append_nil, List.length_nil, Nat.add_zero]
      rw [Nat.sub_eq_zero_of_le h, List.drop_zero]
  | cons x xs ih =>
      rw [List.foldl_cons]
      have h1 : (trimMessages (l ++ [x]) m).length ≤ m :=
        trimMessages_append_one_length l x m h
      rw [ih _ h1, trimMessages_append_one l x m h]
      have hk : l.length + 1 - m ≤ (l ++ [x]).length := by
        simp only [List.length_append, List.length_cons, List.length_nil]
        omega
      rw [← List.drop_append_of_le_length hk, List.drop_drop]
      have harr : (l ++ [x]) ++ xs = l ++ x :: xs := by
        rw [List.append_assoc]
        rfl
      rw [harr]
      congr 1
      simp only [List.length_drop, List.length_append, List.length_cons, List.length_nil]
      omega

theorem foldl_addMessageToRoom_messages (room : Room) (msgs : List Message) :
    (msgs.foldl addMessageToRoom room).messages
      = msgs.foldl (fun acc x => trimMessages (acc ++ [x]) MAX_ROOM_MESSAGES)
          room.messages := by
  induction msgs generalizing room with
  | nil => rfl
  | cons x xs ih =>
      rw [List.foldl_cons, List.foldl_cons, ih]
      rfl

theorem foldl_addMessageToThread_messages (thread : Thread) (msgs : List Message) :
    (msgs.foldl addMessageToThread thread).messages
      = msgs.foldl (fun acc x => trimMessages (acc ++ [x]) MAX_PRIVATE_MESSAGES)
          thread.messages := by
  induction msgs generalizing thread with
  | nil => rfl
  | cons x xs ih =>
      rw [List.foldl_cons, List.foldl_cons, ih]
      rfl

/-- C1: for every Room or Thread message log (within its capacity, as every
reachable log is) and every sequence of appends, the resulting log is exactly
the most recent 250 entries of the concatenated history in arrival order; its
length never exceeds 250, and after appending more than 250 messages it is
exactly the most recent 250 of the appended messages with length 250 —
oldest entries evicted first, survivors in unchanged order. -/
theorem c1_log_bound (room : Room) (thread : Thread) (msgs : List Message)
    (hroom : room.messages.length ≤ MAX_ROOM_MESSAGES)
    (hthread : thread.messages.length ≤ MAX_PRIVATE_MESSAGES) :
    ((msgs.foldl addMessageToRoom room).messages
        = (room.messages ++ msgs).drop
            (room.messages.length + msgs.length - MAX_ROOM_MESSAGES))
    ∧ ((msgs.foldl addMessageToThread thread).messages
        = (thread.messages ++ msgs).drop
            (thread.messages.length + msgs.length - MAX_PRIVATE_MESSAGES))
    ∧ (msgs.foldl addMessageToRoom room).messages.length ≤ MAX_ROOM_MESSAGES
    ∧ (msgs.foldl addMessageToThread thread).messages.length ≤ MAX_PRIVATE_MESSAGES
    ∧ (MAX_ROOM_MESSAGES < msgs.length →
        (msgs.foldl addMessageToRoom room).messages
            = msgs.drop (msgs.length - MAX_ROOM_MESSAGES)
        ∧ (msgs.foldl addMessageToRoom room).messages.length = MAX_ROOM_MESSAGES
        ∧ (msgs.foldl addMessageToThread thread).messages
            = msgs.drop (msgs.length - MAX_PRIVATE_MESSAGES)
        ∧ (msgs.foldl addMessageToThread thread).messages.length
            = MAX_PRIVATE_MESSAGES) := by
  simp only [MAX_ROOM_MESSAGES, MAX_PRIVATE_MESSAGES] at *
  have hR : (msgs.foldl addMessageToRoom room).messages
      = (room.messages ++ msgs).drop (room.messages.length + msgs.length - 250) := by
    rw [foldl_addMessageToRoom_messages]
    simp only [MAX_ROOM_MESSAGES]
    exact foldl_trim_append 250 msgs room.messages hroom
  have hT : (msgs.foldl addMessageToThread thread).messages
      = (thread.messages ++ msgs).drop (thread.messages.length + msgs.length - 250) := by
    rw [foldl_addMessageToThread_messages]
    simp only [MAX_PRIVATE_MESSAGES]
    exact foldl_trim_append 250 msgs thread.messages hthread
  refine ⟨hR, hT, ?_, ?_, ?_⟩
  · rw [hR]
    simp only [List.length_drop, List.length_append]
    omega
  · rw [hT]
    simp only [List.length_drop, List.length_append]
    omega
  · intro hlt
    have harithR : room.messages.length + msgs.length - 250
        = room.messages.length + (msgs.length - 250) := by omega
    have harithT : thread.messages.length + msgs.length - 250
        = thread.messages.length + (msgs.length - 250) := by omega
    refine ⟨?_, ?_, ?_, ?_⟩
    · rw [hR, harithR, List.drop_append]
    · rw [hR]
      simp only [List.length_drop, List.length_append]
      omega
    · rw [hT, harithT, List.drop_append]
    · rw [hT]
      simp only [List.length_drop, List.length_append]
      omega

/-- Witness for C1 at a concrete input: an empty room and thread and 251
appended messages. -/
def emptyRoomW : Room :=
  { id := "general", name := "General", description := "", createdAt := 0,
    createdBy := "system", messages := [], members := [], typing := [] }

/-- Concrete thread used by the C1 witness. -/
def emptyThreadW : Thread :=
  { id := "a::b", participants := ["a", "b"], messages := [], createdAt := 0 }

/-- Concrete message with the given timestamp, used by witnesses. -/
def plainMsg (i : Nat) : Message :=
  { id := toString i, roomId := "general", sender := "alice", senderId := "s1",
    body := "hello", timestamp := i, attachments := [], isSystem := false,
    isPrivate := false, reactions := [], deliveredTo := ["alice"],
    readBy := ["alice"], tempId := none }

theorem c1_log_bound_witness :
    emptyRoomW.messages.length ≤ MAX_ROOM_MESSAGES
    ∧ emptyThreadW.messages.length ≤ MAX_PRIVATE_MESSAGES
    ∧ MAX_ROOM_MESSAGES < ((List.range 251).map plainMsg).length
    ∧ (((List.range 251).map plainMsg).foldl addMessageToRoom emptyRoomW).messages.length
        = MAX_ROOM_MESSAGES :=
  ⟨by decide, by decide, by simp [MAX_ROOM_MESSAGES],
    ((c1_log_bound emptyRoomW emptyThreadW ((List.range 251).map plainMsg)
        (by decide) (by decide)).2.2.2.2 (by simp [MAX_ROOM_MESSAGES])).2.1⟩

/-! ### Lemmas about reactions (for claim C5) -/

/-- Well-formedness of a reaction map as maintained by the server: emoji keys
are distinct (JS `Map`), every user set is nonempty (empty entries are
removed by `toggleReaction`) and duplicate-free (JS `Set`). -/
def ReactionsWF (r : List (String × List String)) : Prop :=
  keysNodup r ∧ ∀ p ∈ r, p.2 ≠ [] ∧ p.2.Nodup

/-- Reaction states are compared as the spec's mapping emoji → set of
usernames ("insertion order irrelevant, empty emoji entries removed"):
the same emoji keys are present and each emoji has the same set of users. -/
def reactionsEquiv (r1 r2 : List (String × List String)) : Prop :=
  ∀ e : String, (mapGet r1 e).isSome = (mapGet r2 e).isSome
    ∧ ∀ u : String, u ∈ (mapGet r1 e).getD [] ↔ u ∈ (mapGet r2 e).getD []

theorem mapGet_append (L1 L2 : List (String × α)) (k : String) :
    mapGet (L1 ++ L2) k = (mapGet L1 k).or (mapGet L2 k) := by
  rw [mapGet, mapGet, mapGet, List.find?_append]
  cases L1.find? (fun p => p.1 == k) with
  | none => simp
  | some q => simp

theorem mapGet_none_of_not_has (m : List (String × α)) (k : String)
    (h : mapHas m k = false) : mapGet m k = none := by
  cases hres : mapGet m k with
  | none => rfl
  | some v =>
      exfalso
      rw [mapHas, hres] at h
      simp at h

theorem mapSet_append_absent (L : List (String × α)) (k : String) (s v : α)
    (h : mapHas L k = false) : mapSet (L ++ [(k, s)]) k v = L ++ [(k, v)] := by
  induction L with
  | nil => simp [mapSet]
  | cons p rest ih =>
      have hp : ¬ p.1 = k := by
        intro hp
        have : mapHas (p :: rest) k = true :=
          (mapHas_iff_mem_keys _ _).mpr (by simp [hp])
        rw [this] at h
        exact absurd h (by simp)
      have hrest : mapHas rest k = false := by
        cases hcase : mapHas rest k
        · rfl
        · exfalso
          have : mapHas (p :: rest) k = true :=
            (mapHas_iff_mem_keys _ _).mpr
              (List.mem_cons_of_mem _ ((mapHas_iff_mem_keys _ _).mp hcase))
          rw [this] at h
          exact absurd h (by simp)
      rw [List.cons_append, mapSet_cons, if_neg hp, ih hrest, List.cons_append]

theorem mapDelete_append_absent (L : List (String × α)) (k : String) (s : α)
    (h : mapHas L k = false) : mapDelete (L ++ [(k, s)]) k = L := by
  induction L with
  | nil => simp [mapDelete]
  | cons p rest ih =>
      have hp : ¬ p.1 = k := by
        intro hp
        have : mapHas (p :: rest) k = true :=
          (mapHas_iff_mem_keys _ _).mpr (by simp [hp])
        rw [this] at h
        exact absurd h (by simp)
      have hrest : mapHas rest k = false := by
        cases hcase : mapHas rest k
        · rfl
        · exfalso
          have : mapHas (p :: rest) k = true :=
            (mapHas_iff_mem_keys _ _).mpr
              (List.mem_cons_of_mem _ ((mapHas_iff_mem_keys _ _).mp hcase))
          rw [this] at h
          exact absurd h (by simp)
      rw [List.cons_append, mapDelete_cons, if_neg hp, ih hrest]

theorem mapSet_mapSet (m : List (String × α)) (k : String) (v w : α) :
    mapSet (mapSet m k v) k w = mapSet m k w := by
  induction m with
  | nil => simp [mapSet]
  | cons p rest ih =>
      by_cases hp : p.1 = k
      · rw [mapSet_cons, if_pos hp, mapSet_cons, if_pos rfl, mapSet_cons, if_pos hp]
      · rw [mapSet_cons, if_neg hp, mapSet_cons, if_neg hp, mapSet_cons, if_neg hp, ih]

theorem mapSet_self_of_mapGet (m : List (String × α)) (k : String) (v : α)
    (h : mapGet m k = some v) : mapSet m k v = m := by
  induction m with
  | nil => simp [mapGet_nil] at h
  | cons p rest ih =>
      rw [mapGet_cons] at h
      by_cases hp : p.1 = k
      · rw [if_pos hp] at h
        rw [mapSet_cons, if_pos hp]
        obtain ⟨a, b⟩ := p
        simp only at hp
        simp only [Option.some.injEq] at h
        rw [hp, h]
      · rw [if_neg hp] at h
        rw [mapSet_cons, if_neg hp, ih h]

theorem mem_mapSet (m : List (String × α)) (k : String) (v : α) (q : String × α)
    (h : q ∈ mapSet m k v) : q = (k, v) ∨ q ∈ m := by
  induction m with
  | nil => simpa [mapSet] using h
  | cons p rest ih =>
      rw [mapSet_cons] at h
      by_cases hp : p.1 = k
      · rw [if_pos hp] at h
        rcases List.mem_cons.mp h with h' | h'
        · exact Or.inl h'
        · exact Or.inr (List.mem_cons_of_mem _ h')
      · rw [if_neg hp] at h
        rcases List.mem_cons.mp h with h' | h'
        · exact Or.inr (by simp [h'])
        · rcases ih h' with h'' | h''
          · exact Or.inl h''
          · exact Or.inr (List.mem_cons_of_mem _ h'')

theorem reactionsEquiv_refl (r : List (String × List String)) :
    reactionsEquiv r r := fun _ => ⟨rfl, fun _ => Iff.rfl⟩

/-! Case lemmas unfolding `toggleReaction` (server.js lines 248-260). -/

theorem toggleReaction_absent (msg : Message) (e u : String)
    (h : mapGet msg.reactions e = none) :
    (toggleReaction msg e u).reactions = msg.reactions ++ [(e, [u])] := by
  have hhas : mapHas msg.reactions e = false := by rw [mapHas, h]; rfl
  unfold toggleReaction
  simp only [h, Option.getD_none, List.not_mem_nil, if_false, hhas,
    Bool.false_eq_true, List.nil_append]
  exact mapSet_append_absent msg.reactions e [] [u] hhas

theorem toggleReaction_add (msg : Message) (e u : String) (s : List String)
    (h : mapGet msg.reactions e = some s) (hu : u ∉ s) :
    (toggleReaction msg e u).reactions = mapSet msg.reactions e (s ++ [u]) := by
  have hhas : mapHas msg.reactions e = true := by rw [mapHas, h]; rfl
  unfold toggleReaction
  simp only [h, Option.getD_some, hu, if_false, hhas, if_true]

theorem toggleReaction_remove_keep (msg : Message) (e u : String) (s : List String)
    (h : mapGet msg.reactions e = some s) (hu : u ∈ s) (hne : ¬ (s.erase u).isEmpty) :
    (toggleReaction msg e u).reactions = mapSet msg.reactions e (s.erase u) := by
  have hhas : mapHas msg.reactions e = true := by rw [mapHas, h]; rfl
  unfold toggleReaction
  simp only [h, Option.getD_some, hu, if_true, hhas, hne, if_false,
    Bool.false_eq_true]

theorem toggleReaction_remove_delete (msg : Message) (e u : String) (s : List String)
    (h : mapGet msg.reactions e = some s) (hu : u ∈ s) (hnil : (s.erase u).isEmpty) :
    (toggleReaction msg e u).reactions = mapDelete msg.reactions e := by
  have hhas : mapHas msg.reactions e = true := by rw [mapHas, h]; rfl
  unfold toggleReaction
  simp only [h, Option.getD_some, hu, if_true, hhas, hnil]

theorem eq_singleton_of_erase_nil (s : List String) (u : String) (hu : u ∈ s)
    (h : s.erase u = []) : s = [u] := by
  cases s with
  | nil => cases hu
  | cons a rest =>
      by_cases ha : a = u
      · subst ha
        rw [List.erase_cons_head] at h
        rw [h]
      · rw [List.erase_cons_tail (by simpa using ha)] at h
        cases h

theorem reactionsWF_toggle (msg : Message) (e u : String)
    (hwf : ReactionsWF msg.reactions) :
    ReactionsWF (toggleReaction msg e u).reactions := by
  obtain ⟨hnd, hents⟩ := hwf
  cases hget : mapGet msg.reactions e with
  | none =>
      rw [toggleReaction_absent msg e u hget]
      have hhas : mapHas msg.reactions e = false := by rw [mapHas, hget]; rfl
      have hkmem : e ∉ msg.reactions.map (fun p => p.1) := by
        intro hmem
        rw [(mapHas_iff_mem_keys _ _).mpr hmem] at hhas
        exact absurd hhas (by simp)
      constructor
      · unfold keysNodup
        rw [List.map_append, List.nodup_append]
        refine ⟨hnd, by simp, ?_⟩
        intro a ha hak
        simp only [List.map_cons, List.map_nil, List.mem_singleton] at hak
        exact hkmem (hak ▸ ha)
      · intro p hp
        rcases List.mem_append.mp hp with h' | h'
        · exact hents p h'
        · rw [List.mem_singleton.mp h']
          exact ⟨by simp, by simp⟩
  | some s =>
      have hsmem := mapGet_mem _ _ _ hget
      have hs := hents _ hsmem
      by_cases hu : u ∈ s
      · by_cases hemp : (s.erase u).isEmpty
        · rw [toggleReaction_remove_delete msg e u s hget hu hemp]
          exact ⟨keysNodup_mapDelete _ _ hnd,
            fun p hp => hents p (mapDelete_subset _ _ _ hp)⟩
        · rw [toggleReaction_remove_keep msg e u s hget hu hemp]
          refine ⟨keysNodup_mapSet _ _ _ hnd, ?_⟩
          intro p hp
          rcases mem_mapSet _ _ _ _ hp with h' | h'
          · rw [h']
            refine ⟨?_, hs.2.erase u⟩
            intro hnil
            have hnil' : s.erase u = [] := hnil
            rw [hnil'] at hemp
            exact hemp rfl
          · exact hents p h'
      · rw [toggleReaction_add msg e u s hget hu]
        refine ⟨keysNodup_mapSet _ _ _ hnd, ?_⟩
        intro p hp
        rcases mem_mapSet _ _ _ _ hp with h' | h'
        · rw [h']
          refine ⟨by simp, ?_⟩
          rw [List.nodup_append]
          refine ⟨hs.2, by simp, ?_⟩
          intro a ha hau
          rw [List.mem_singleton] at hau
          exact hu (hau ▸ ha)
        · exact hents p h'

theorem reactionsWF_foldl (msg : Message) (toggles : List (String × String))
    (hwf : ReactionsWF msg.reactions) :
    ReactionsWF ((toggles.foldl (fun m q => toggleReaction m q.1 q.2) msg).reactions) := by
  induction toggles generalizing msg with
  | nil => exact hwf
  | cons t ts ih =>
      rw [List.foldl_cons]
      exact ih _ (reactionsWF_toggle _ _ _ hwf)

/-- C5: with a well-formed reaction map, toggling the same (emoji, user) pair
twice returns the reactions to their prior state — compared as the spec's
mapping emoji → set of usernames (the spec declares insertion order
irrelevant); toggling once when the user is absent adds exactly that one
entry and leaves every other emoji unchanged; well-formedness is preserved,
and after any sequence of toggles no `reactions[emoji]` entry is empty
(the emoji key is removed when its last holder toggles off). -/
theorem c5_reaction_toggle (msg : Message) (e u : String)
    (hwf : ReactionsWF msg.reactions) :
    reactionsEquiv (toggleReaction (toggleReaction msg e u) e u).reactions
        msg.reactions
    ∧ (u ∉ (mapGet msg.reactions e).getD [] →
        mapGet (toggleReaction msg e u).reactions e
            = some ((mapGet msg.reactions e).getD [] ++ [u])
        ∧ ∀ e', e' ≠ e →
            mapGet (toggleReaction msg e u).reactions e' = mapGet msg.reactions e')
    ∧ ReactionsWF (toggleReaction msg e u).reactions
    ∧ (∀ toggles : List (String × String),
        ∀ p ∈ (toggles.foldl (fun m q => toggleReaction m q.1 q.2) msg).reactions,
          p.2 ≠ []) := by
  obtain ⟨hnd, hents⟩ := hwf
  refine ⟨?_, ?_, reactionsWF_toggle msg e u ⟨hnd, hents⟩, ?_⟩
  · -- double toggle
    cases hget : mapGet msg.reactions e with
    | none =>
        have hhas : mapHas msg.reactions e = false := by rw [mapHas, hget]; rfl
        have h1 : (toggleReaction msg e u).reactions
            = msg.reactions ++ [(e, [u])] := toggleReaction_absent msg e u hget
        have hget1 : mapGet (toggleReaction msg e u).reactions e = some [u] := by
          rw [h1, mapGet_append, hget, mapGet_cons]
          simp
        have h2 : (toggleReaction (toggleReaction msg e u) e u).reactions
            = mapDelete (toggleReaction msg e u).reactions e :=
          toggleReaction_remove_delete _ e u [u] hget1 (by simp) (by simp)
        rw [h2, h1, mapDelete_append_absent _ _ _ hhas]
        exact reactionsEquiv_refl _
    | some s =>
        have hs := hents _ (mapGet_mem _ _ _ hget)
        by_cases hu : u ∈ s
        · by_cases hemp : (s.erase u).isEmpty
          · -- last holder: delete then re-insert at the end
            have hsu : s = [u] :=
              eq_singleton_of_erase_nil s u hu (by simpa [List.isEmpty_iff] using hemp)
            have h1 : (toggleReaction msg e u).reactions
                = mapDelete msg.reactions e :=
              toggleReaction_remove_delete msg e u s hget hu hemp
            have hget1 : mapGet (toggleReaction msg e u).reactions e = none := by
              rw [h1]
              exact mapGet_mapDelete_self _ _ hnd
            have h2 : (toggleReaction (toggleReaction msg e u) e u).reactions
                = (toggleReaction msg e u).reactions ++ [(e, [u])] :=
              toggleReaction_absent _ e u hget1
            rw [h2, h1]
            intro e'
            by_cases he' : e' = e
            · subst he'
              rw [mapGet_append, mapGet_mapDelete_self _ _ hnd, hget, hsu, mapGet_cons]
              simp
            · rw [mapGet_append, mapGet_mapDelete_ne _ _ _ he', mapGet_cons]
              have hne2 : ¬ ((e, [u]) : String × List String).1 = e' :=
                fun hh => he' hh.symm
              simp [hne2, mapGet_nil, Option.or_none]
          · -- removal keeps other holders; re-adding appends the user at the end
            have h1 : (toggleReaction msg e u).reactions
                = mapSet msg.reactions e (s.erase u) :=
              toggleReaction_remove_keep msg e u s hget hu hemp
            have hget1 : mapGet (toggleReaction msg e u).reactions e
                = some (s.erase u) := by
              rw [h1]
              exact mapGet_mapSet_self _ _ _
            have hu1 : u ∉ s.erase u := by
              intro hmem
              exact absurd ((hs.2.mem_erase_iff).mp hmem).1 (by simp)
            have h2 : (toggleReaction (toggleReaction msg e u) e u).reactions
                = mapSet (toggleReaction msg e u).reactions e (s.erase u ++ [u]) :=
              toggleReaction_add _ e u (s.erase u) hget1 hu1
            rw [h2, h1, mapSet_mapSet]
            intro e'
            by_cases he' : e' = e
            · subst he'
              rw [mapGet_mapSet_self, hget]
              refine ⟨rfl, ?_⟩
              intro x
              simp only [Option.getD_some, List.mem_append, List.mem_singleton]
              constructor
              · intro hx
                rcases hx with hx | hx
                · exact ((hs.2.mem_erase_iff).mp hx).2
                · exact hx ▸ hu
              · intro hx
                by_cases hxu : x = u
                · exact Or.inr hxu
                · exact Or.inl ((hs.2.mem_erase_iff).mpr ⟨hxu, hx⟩)
            · rw [mapGet_mapSet_ne _ _ _ _ he']
              exact ⟨rfl, fun _ => Iff.rfl⟩
        · -- user not present: add then remove restores the map literally
          have h1 : (toggleReaction msg e u).reactions
              = mapSet msg.reactions e (s ++ [u]) :=
            toggleReaction_add msg e u s hget hu
          have hget1 : mapGet (toggleReaction msg e u).reactions e
              = some (s ++ [u]) := by
            rw [h1]
            exact mapGet_mapSet_self _ _ _
          have herase : (s ++ [u]).erase u = s := by
            rw [List.erase_append_right _ hu, List.erase_cons_head, List.append_nil]
          have hne : ¬ ((s ++ [u]).erase u).isEmpty := by
            rw [herase]
            intro hnil
            exact hs.1 (by simpa [List.isEmpty_iff] using hnil)
          have h2 : (toggleReaction (toggleReaction msg e u) e u).reactions
              = mapSet (toggleReaction msg e u).reactions e ((s ++ [u]).erase u) :=
            toggleReaction_remove_keep _ e u (s ++ [u]) hget1 (by simp) hne
          rw [h2, h1, herase, mapSet_mapSet, mapSet_self_of_mapGet _ _ _ hget]
          exact reactionsEquiv_refl _
  · -- single toggle with the user absent adds exactly one entry
    intro hu
    cases hget : mapGet msg.reactions e with
    | none =>
        have h1 : (toggleReaction msg e u).reactions
            = msg.reactions ++ [(e, [u])] := toggleReaction_absent msg e u hget
        constructor
        · rw [h1, mapGet_append, hget, mapGet_cons]
          simp
        · intro e' he'
          rw [h1, mapGet_append, mapGet_cons]
          have hne2 : ¬ ((e, [u]) : String × List String).1 = e' :=
            fun hh => he' hh.symm
          simp [hne2, mapGet_nil, Option.or_none]
    | some s =>
        rw [hget] at hu
        simp only [Option.getD_some] at hu
        have h1 : (toggleReaction msg e u).reactions
            = mapSet msg.reactions e (s ++ [u]) :=
          toggleReaction_add msg e u s hget hu
        constructor
        · rw [h1, mapGet_mapSet_self]
          rfl
        · intro e' he'
          rw [h1, mapGet_mapSet_ne _ _ _ _ he']
  · -- no empty reaction entry survives any sequence of toggles
    intro toggles p hp
    exact ((reactionsWF_foldl msg toggles ⟨hnd, hents⟩).2 p hp).1

/-- Concrete message used by the C5 witness. -/
def msgW : Message :=
  { plainMsg 0 with reactions := [("like", ["alice"])] }

theorem c5_reaction_toggle_witness :
    ReactionsWF msgW.reactions
    ∧ reactionsEquiv
        (toggleReaction (toggleReaction msgW "like" "bob") "like" "bob").reactions
        msgW.reactions :=
  ⟨by unfold ReactionsWF keysNodup; decide,
    (c5_reaction_toggle msgW "like" "bob" (by unfold ReactionsWF keysNodup; decide)).1⟩

/-- C6: the private-thread key is symmetric in its two participants. -/
theorem c6_thread_key_symmetric (a b : String) :
    makeThreadKey a b = makeThreadKey b a := by
  unfold makeThreadKey
  rcases lt_trichotomy a b with h | h | h
  · rw [if_pos (le_of_lt h), if_neg (not_le.mpr h)]
  · rw [h]
  · rw [if_neg (not_le.mpr h), if_pos (le_of_lt h)]

/-! ### Server state and event handlers (server.js lines 72-76, 262-299, 390-888) -/

/-- Acknowledgement payload sent through a handler's `ack` callback. -/
structure Ack where
  ok : Bool
  error : Option String := none
  activeRoom : Option String := none
  messageId : Option String := none
  threadId : Option String := none
deriving Repr, DecidableEq

/-- The server's shared mutable state (server.js lines 72-76).  `nextId`
models the `uuidv4()` generator: each call consumes the counter. -/
structure ServerState where
  users : List (String × UserRec)
  usernameToSocketId : List (String × String)
  rooms : List (String × Room)
  privateThreads : List (String × Thread)
  nextId : Nat
deriving Repr, DecidableEq

/-- `createRoom` (server.js lines 81-102) at the call sites modelled here,
which all pass an explicit `options.id` (the `normalizeRoomId`/uuid fallback
path is not exercised by the modelled events). -/
def createRoom (st : ServerState) (name id descr createdBy : String) (now : Nat) :
    ServerState × Room :=
  match mapGet st.rooms id with
  | some room => (st, room)
  | none =>
      let room : Room :=
        { id := id, name := name, description := descr, createdAt := now,
          createdBy := createdBy, messages := [], members := [], typing := [] }
      ({ st with rooms := mapSet st.rooms id room }, room)

/-- `buildMessage` (server.js lines 262-280); `id` is the consumed uuid and
`now` the current timestamp. -/
def buildMessage (id : String) (now : Nat) (roomId senderUsername senderId body : String)
    (attachments : List String) (isSystem isPrivate : Bool) (tempId : Option String) :
    Message :=
  { id := id, roomId := roomId, sender := senderUsername, senderId := senderId,
    body := body, timestamp := now, attachments := attachments,
    isSystem := isSystem, isPrivate := isPrivate, reactions := [],
    deliveredTo := [senderUsername],
    readBy := if isSystem then [] else [senderUsername],
    tempId := tempId }

/-- `addSystemMessage` (server.js lines 282-299): build a system message from
the `System` sender and append it to the room's log (no-op when the room does
not exist). -/
def addSystemMessage (st : ServerState) (roomId text : String) (now : Nat) :
    ServerState :=
  match mapGet st.rooms roomId with
  | none => st
  | some room =>
      let message :=
        buildMessage ("uuid-" ++ toString st.nextId) now roomId "System" "system"
          text [] true false none
      { st with nextId := st.nextId + 1,
                rooms := mapSet st.rooms roomId (addMessageToRoom room message) }

/-- `ensurePrivateThread` (server.js lines 108-121). -/
def ensurePrivateThread (st : ServerState) (userA userB : String) (now : Nat) :
    ServerState × Thread :=
  let key := makeThreadKey userA userB
  match mapGet st.privateThreads key with
  | some t => (st, t)
  | none =>
      let t : Thread :=
        { id := key, participants := [userA, userB], messages := [], createdAt := now }
      ({ st with privateThreads := mapSet st.privateThreads key t }, t)

/-- The `user_join` handler (server.js lines 391-439). -/
def userJoin (st : ServerState) (socketId payload : String) (now : Nat) :
    ServerState × Ack :=
  let username := jsTrim payload
  if username = "" then
    (st, { ok := false, error := some "Username is required" })
  else if mapHas st.usernameToSocketId username then
    (st, { ok := false, error := some "That username is already in use" })
  else
    let userRecord : UserRec :=
      { id := socketId, username := username, status := "online",
        activeRoom := "general", rooms := [], lastSeen := now }
    let st1 :=
      { st with users := mapSet st.users socketId userRecord,
                usernameToSocketId := mapSet st.usernameToSocketId username socketId }
    let (st2, defaultRoom) :=
      match mapGet st1.rooms "general" with
      | some r => (st1, r)
      | none => createRoom st1 "General" "general" "" "system" now
    let userRecord1 := { userRecord with rooms := setAdd userRecord.rooms defaultRoom.id }
    let st3 :=
      { st2 with users := mapSet st2.users socketId userRecord1,
                 rooms := mapSet st2.rooms defaultRoom.id
                   { defaultRoom with members := setAdd defaultRoom.members socketId } }
    let st4 := addSystemMessage st3 defaultRoom.id (username ++ " joined the chat") now
    (st4, { ok := true, activeRoom := some userRecord1.activeRoom })

/-- Body of the `user.rooms.forEach` cleanup loop in the `disconnect`
handler (server.js lines 838-850). -/
def disconnectRoomCleanup (socketId username : String) (now : Nat)
    (acc : ServerState) (roomId : String) : ServerState :=
  match mapGet acc.rooms roomId with
  | none => acc
  | some room =>
      let room1 :=
        { room with members := setDelete room.members socketId,
                    typing := setDelete room.typing username }
      let acc1 := { acc with rooms := mapSet acc.rooms roomId room1 }
      addSystemMessage acc1 room1.id (username ++ " left the room") now

/-- The `disconnect` handler (server.js lines 829-865). -/
def disconnect (st : ServerState) (socketId : String) (now : Nat) : ServerState :=
  match mapGet st.users socketId with
  | none => st
  | some user =>
      let username := user.username
      let st1 := user.rooms.foldl (disconnectRoomCleanup socketId username now) st
      { st1 with users := mapDelete st1.users socketId,
                 usernameToSocketId := mapDelete st1.usernameToSocketId username }

/-- The `leave_room` handler (server.js lines 482-511).  Besides the new
state and the ack it returns the names of the events emitted, in order. -/
def leaveRoom (st : ServerState) (socketId roomId : String) (now : Nat) :
    ServerState × Ack × List String :=
  match mapGet st.users socketId, mapGet st.rooms roomId with
  | some user, some room =>
      let user1 := { user with rooms := setDelete user.rooms room.id }
      let room1 := { room with members := setDelete room.members socketId }
      let st1 :=
        { st with users := mapSet st.users socketId user1,
                  rooms := mapSet st.rooms roomId room1 }
      let st2 := addSystemMessage st1 room.id (user.username ++ " left " ++ room.name) now
      if user.activeRoom = room.id then
        let user2 := { user1 with activeRoom := "general" }
        ({ st2 with users := mapSet st2.users socketId user2 },
         { ok := true },
         ["receive_message", "active_room_changed", "room_user_left", "room_list"])
      else
        (st2, { ok := true },
         ["receive_message", "room_user_left", "room_list"])
  | _, _ => (st, { ok := false, error := some "Unable to leave room" }, [])

/-- The `private_message` handler (server.js lines 685-743). -/
def privateMessage (st : ServerState) (socketId toUser body : String)
    (tempId : Option String) (now : Nat) : ServerState × Ack :=
  let trimmed := jsTrim body
  match mapGet st.users socketId with
  | none => (st, { ok := false, error := some "Not authenticated" })
  | some user =>
      if toUser = "" then (st, { ok := false, error := some "Recipient is required" })
      else if trimmed = "" then
        (st, { ok := false, error := some "Message cannot be empty" })
      else
        let recipientUser :=
          match mapGet st.usernameToSocketId toUser with
          | some sid => mapGet st.users sid
          | none => none
        match recipientUser with
        | none => (st, { ok := false, error := some "Recipient is offline" })
        | some recipient =>
            let (st1, thread) := ensurePrivateThread st user.username recipient.username now
            let messageRecord :=
              buildMessage ("uuid-" ++ toString st1.nextId) now thread.id
                user.username user.id trimmed [] false true tempId
            let st2 := { st1 with nextId := st1.nextId + 1 }
            let messageRecord1 := registerDelivered messageRecord recipient.username
            let thread1 := addMessageToThread thread messageRecord1
            -- `addMessageToThread` mutates the thread object in place, i.e.
            -- under the key it was looked up with
            let key1 := makeThreadKey user.username recipient.username
            let st3 :=
              { st2 with privateThreads := mapSet st2.privateThreads key1 thread1 }
            (st3, { ok := true, messageId := some messageRecord.id,
                    threadId := some thread.id })

/-- The two seed rooms (server.js lines 24-35, 104). -/
def initState : ServerState :=
  { users := [], usernameToSocketId := [],
    rooms :=
      [("general",
        { id := "general", name := "General",
          description := "Welcome to the main lobby. Say hi", createdAt := 0,
          createdBy := "system", messages := [], members := [], typing := [] }),
       ("random",
        { id := "random", name := "Random",
          description := "Anything goes. Share memes, links, and fun stuff.",
          createdAt := 0, createdBy := "system", messages := [], members := [],
          typing := [] })],
    privateThreads := [], nextId := 0 }

/-- Connection-level events for the uniqueness claims (C2, C8): a `user_join`
attempt and a disconnect. -/
inductive JDEvent where
  | join (socketId payload : String) (now : Nat)
  | disconnect (socketId : String) (now : Nat)
deriving Repr, DecidableEq

/-- One step of the join/disconnect state machine. -/
def stepJD (st : ServerState) (e : JDEvent) : ServerState :=
  match e with
  | .join sid payload now => (userJoin st sid payload now).1
  | .disconnect sid now => disconnect st sid now

/-- The state reached from the initial state by a sequence of join and
disconnect events. -/
def runJD (events : List JDEvent) : ServerState :=
  events.foldl stepJD initState

/-! ### Lemmas about the join/disconnect machine (claims C2, C8) -/

theorem mapHas_mapSet_self (m : List (String × α)) (k : String) (v : α) :
    mapHas (mapSet m k v) k = true := by
  rw [mapHas, mapGet_mapSet_self]
  rfl

theorem mapHas_mapSet_of_has (m : List (String × α)) (k k' : String) (v : α)
    (h : mapHas m k' = true) : mapHas (mapSet m k v) k' = true := by
  by_cases hk : k' = k
  · subst hk
    exact mapHas_mapSet_self m k' v
  · rw [mapHas, mapGet_mapSet_ne m k k' v hk]
    exact h

theorem addSystemMessage_users (st : ServerState) (roomId text : String) (now : Nat) :
    (addSystemMessage st roomId text now).users = st.users := by
  unfold addSystemMessage
  cases mapGet st.rooms roomId <;> rfl

theorem addSystemMessage_usernameMap (st : ServerState) (roomId text : String)
    (now : Nat) :
    (addSystemMessage st roomId text now).usernameToSocketId
      = st.usernameToSocketId := by
  unfold addSystemMessage
  cases mapGet st.rooms roomId <;> rfl

theorem addSystemMessage_threads (st : ServerState) (roomId text : String)
    (now : Nat) :
    (addSystemMessage st roomId text now).privateThreads = st.privateThreads := by
  unfold addSystemMessage
  cases mapGet st.rooms roomId <;> rfl

theorem disconnectRoomCleanup_users (sid un : String) (now : Nat)
    (acc : ServerState) (rid : String) :
    (disconnectRoomCleanup sid un now acc rid).users = acc.users := by
  unfold disconnectRoomCleanup
  cases mapGet acc.rooms rid with
  | none => rfl
  | some room => rw [addSystemMessage_users]

theorem disconnectRoomCleanup_usernameMap (sid un : String) (now : Nat)
    (acc : ServerState) (rid : String) :
    (disconnectRoomCleanup sid un now acc rid).usernameToSocketId
      = acc.usernameToSocketId := by
  unfold disconnectRoomCleanup
  cases mapGet acc.rooms rid with
  | none => rfl
  | some room => rw [addSystemMessage_usernameMap]

theorem foldl_disconnectRoomCleanup_users (sid un : String) (now : Nat)
    (rids : List String) (st : ServerState) :
    (rids.foldl (disconnectRoomCleanup sid un now) st).users = st.users := by
  induction rids generalizing st with
  | nil => rfl
  | cons r rs ih =>
      rw [List.foldl_cons, ih, disconnectRoomCleanup_users]

theorem foldl_disconnectRoomCleanup_usernameMap (sid un : String) (now : Nat)
    (rids : List String) (st : ServerState) :
    (rids.foldl (disconnectRoomCleanup sid un now) st).usernameToSocketId
      = st.usernameToSocketId := by
  induction rids generalizing st with
  | nil => rfl
  | cons r rs ih =>
      rw [List.foldl_cons, ih, disconnectRoomCleanup_usernameMap]

theorem disconnect_of_none (st : ServerState) (sid : String) (now : Nat)
    (h : mapGet st.users sid = none) : disconnect st sid now = st := by
  unfold disconnect
  rw [h]

theorem disconnect_users (st : ServerState) (sid : String) (now : Nat)
    (user : UserRec) (h : mapGet st.users sid = some user) :
    (disconnect st sid now).users = mapDelete st.users sid := by
  unfold disconnect
  rw [h]
  simp only [foldl_disconnectRoomCleanup_users]

theorem disconnect_usernameMap (st : ServerState) (sid : String) (now : Nat)
    (user : UserRec) (h : mapGet st.users sid = some user) :
    (disconnect st sid now).usernameToSocketId
      = mapDelete st.usernameToSocketId user.username := by
  unfold disconnect
  rw [h]
  simp only [foldl_disconnectRoomCleanup_usernameMap]

theorem userJoin_empty (st : ServerState) (sid payload : String) (now : Nat)
    (h : jsTrim payload = "") :
    userJoin st sid payload now
      = (st, { ok := false, error := some "Username is required" }) := by
  unfold userJoin
  rw [if_pos h]

theorem userJoin_conflict (st : ServerState) (sid payload : String) (now : Nat)
    (h : ¬ jsTrim payload = "")
    (h2 : mapHas st.usernameToSocketId (jsTrim payload) = true) :
    userJoin st sid payload now
      = (st, { ok := false, error := some "That username is already in use" }) := by
  unfold userJoin
  rw [if_neg h, if_pos h2]

theorem userJoin_success (st : ServerState) (sid payload : String) (now : Nat)
    (h : ¬ jsTrim payload = "")
    (h2 : mapHas st.usernameToSocketId (jsTrim payload) = false) :
    (∃ rec : UserRec,
        (userJoin st sid payload now).1.users = mapSet st.users sid rec
        ∧ rec.username = jsTrim payload ∧ rec.id = sid)
    ∧ (userJoin st sid payload now).1.usernameToSocketId
        = mapSet st.usernameToSocketId (jsTrim payload) sid
    ∧ (userJoin st sid payload now).2
        = { ok := true, activeRoom := some "general" } := by
  unfold userJoin
  rw [if_neg h, if_neg (by rw [h2]; simp)]
  cases hg : mapGet st.rooms "general" with
  | some r =>
      refine ⟨⟨{ id := sid, username := jsTrim payload, status := "online",
                 activeRoom := "general", rooms := setAdd [] r.id,
                 lastSeen := now }, ?_, rfl, rfl⟩, ?_, rfl⟩
      · simp only [hg, addSystemMessage_users, mapSet_mapSet]
      · simp only [hg, addSystemMessage_usernameMap]
  | none =>
      have hg1 : mapGet st.rooms "general" = none := hg
      refine ⟨⟨{ id := sid, username := jsTrim payload, status := "online",
                 activeRoom := "general", rooms := setAdd [] "general",
                 lastSeen := now }, ?_, rfl, rfl⟩, ?_, ?_⟩
      · simp only [hg, createRoom, hg1, addSystemMessage_users, mapSet_mapSet]
      · simp only [hg, createRoom, hg1, addSystemMessage_usernameMap]
      · simp only [hg, createRoom, hg1]

theorem mem_mapDelete_key_ne (m : List (String × α)) (k : String)
    (hnd : keysNodup m) (p : String × α) (hp : p ∈ mapDelete m k) : p.1 ≠ k := by
  induction m with
  | nil => cases hp
  | cons q rest ih =>
      have h1 := (keysNodup_cons q rest).mp hnd
      rw [mapDelete_cons] at hp
      by_cases hq : q.1 = k
      · rw [if_pos hq] at hp
        intro hpk
        exact h1.1 (hq ▸ hpk ▸ List.mem_map_of_mem (fun r => r.1) hp)
      · rw [if_neg hq] at hp
        rcases List.mem_cons.mp hp with h' | h'
        · rw [h']
          exact hq
        · exact ih h1.2 h'

/-- Invariant of the join/disconnect machine: the two identity maps have
distinct keys; every live user's username is registered in
`usernameToSocketId`; no two live users share a username; and every live
username is nonempty. -/
def InvJD (st : ServerState) : Prop :=
  keysNodup st.users ∧ keysNodup st.usernameToSocketId
  ∧ (∀ p ∈ st.users, mapHas st.usernameToSocketId p.2.username = true)
  ∧ (∀ p ∈ st.users, ∀ q ∈ st.users, p.2.username = q.2.username → p.1 = q.1)
  ∧ (∀ p ∈ st.users, p.2.username ≠ "")

theorem invJD_userJoin (st : ServerState) (sid payload : String) (now : Nat)
    (h : InvJD st) : InvJD (userJoin st sid payload now).1 := by
  obtain ⟨hnd1, hnd2, hreg, huniq, hne⟩ := h
  by_cases hempty : jsTrim payload = ""
  · rw [userJoin_empty st sid payload now hempty]
    exact ⟨hnd1, hnd2, hreg, huniq, hne⟩
  · cases hhas : mapHas st.usernameToSocketId (jsTrim payload) with
    | true =>
        rw [userJoin_conflict st sid payload now hempty hhas]
        exact ⟨hnd1, hnd2, hreg, huniq, hne⟩
    | false =>
        obtain ⟨⟨rec, husers, hrecname, hrecid⟩, hmap, hack⟩ :=
          userJoin_success st sid payload now hempty hhas
        unfold InvJD
        rw [husers, hmap]
        refine ⟨keysNodup_mapSet _ _ _ hnd1, keysNodup_mapSet _ _ _ hnd2, ?_, ?_, ?_⟩
        · intro p hp
          rcases mem_mapSet _ _ _ _ hp with h' | h'
          · rw [h']
            simp only [hrecname]
            exact mapHas_mapSet_self _ _ _
          · exact mapHas_mapSet_of_has _ _ _ _ (hreg p h')
        · intro p hp q hq
          rcases mem_mapSet _ _ _ _ hp with hp' | hp' <;>
            rcases mem_mapSet _ _ _ _ hq with hq' | hq'
          · rw [hp', hq']
            intro _
            rfl
          · rw [hp']
            intro heq
            exfalso
            simp only [hrecname] at heq
            have := hreg q hq'
            rw [← heq, hhas] at this
            exact absurd this (by simp)
          · rw [hq']
            intro heq
            exfalso
            simp only [hrecname] at heq
            have := hreg p hp'
            rw [heq, hhas] at this
            exact absurd this (by simp)
          · exact huniq p hp' q hq'
        · intro p hp
          rcases mem_mapSet _ _ _ _ hp with h' | h'
          · rw [h']
            simp only [hrecname]
            exact hempty
          · exact hne p h'

theorem invJD_disconnect (st : ServerState) (sid : String) (now : Nat)
    (h : InvJD st) : InvJD (disconnect st sid now) := by
  obtain ⟨hnd1, hnd2, hreg, huniq, hne⟩ := h
  cases hu : mapGet st.users sid with
  | none =>
      rw [disconnect_of_none st sid now hu]
      exact ⟨hnd1, hnd2, hreg, huniq, hne⟩
  | some user =>
      have husers := disconnect_users st sid now user hu
      have hmap := disconnect_usernameMap st sid now user hu
      have humem : (sid, user) ∈ st.users := mapGet_mem _ _ _ hu
      unfold InvJD
      constructor
      · rw [husers]
        exact keysNodup_mapDelete _ _ hnd1
      constructor
      · rw [hmap]
        exact keysNodup_mapDelete _ _ hnd2
      refine ⟨?_, ?_, ?_⟩
      · intro p hp
        rw [husers] at hp
        have hpne : p.1 ≠ sid := mem_mapDelete_key_ne _ _ hnd1 p hp
        have hpmem : p ∈ st.users := mapDelete_subset _ _ _ hp
        have hunne : p.2.username ≠ user.username := by
          intro heq
          exact hpne (huniq p hpmem (sid, user) humem heq)
        rw [hmap, mapHas, mapGet_mapDelete_ne _ _ _ hunne]
        exact hreg p hpmem
      · intro p hp q hq
        rw [husers] at hp hq
        exact huniq p (mapDelete_subset _ _ _ hp) q (mapDelete_subset _ _ _ hq)
      · intro p hp
        rw [husers] at hp
        exact hne p (mapDelete_subset _ _ _ hp)

theorem invJD_init : InvJD initState := by
  unfold InvJD keysNodup initState
  refine ⟨by simp, by simp, ?_, ?_, ?_⟩ <;> intro p hp <;> cases hp

theorem invJD_foldl (events : List JDEvent) (st : ServerState) (h : InvJD st) :
    InvJD (events.foldl stepJD st) := by
  induction events generalizing st with
  | nil => exact h
  | cons e es ih =>
      rw [List.foldl_cons]
      refine ih _ ?_
      cases e with
      | join sid payload now => exact invJD_userJoin st sid payload now h
      | disconnect sid now => exact invJD_disconnect st sid now h

theorem invJD_runJD (events : List JDEvent) : InvJD (runJD events) :=
  invJD_foldl events initState invJD_init

/-- C2: over every sequence of join and disconnect events, at most one live
user holds a given username; a join attempt whose (trimmed) username is held
by a live user fails with the conflict error and leaves the state unchanged;
and a disconnect removes the user's username binding, releasing it for
reuse. -/
theorem c2_username_uniqueness :
    (∀ (events : List JDEvent) (s1 s2 : String) (u1 u2 : UserRec),
        mapGet (runJD events).users s1 = some u1
        → mapGet (runJD events).users s2 = some u2
        → u1.username = u2.username → s1 = s2)
    ∧ (∀ (st : ServerState) (sid s0 payload : String) (now : Nat) (u0 : UserRec),
        InvJD st → mapGet st.users s0 = some u0 → jsTrim payload = u0.username →
        userJoin st sid payload now
          = (st, { ok := false, error := some "That username is already in use" }))
    ∧ (∀ (st : ServerState) (sid : String) (now : Nat) (u : UserRec),
        InvJD st → mapGet st.users sid = some u →
        mapHas (disconnect st sid now).usernameToSocketId u.username = false) := by
  refine ⟨?_, ?_, ?_⟩
  · intro events s1 s2 u1 u2 h1 h2 heq
    have hinv := invJD_runJD events
    exact hinv.2.2.2.1 (s1, u1) (mapGet_mem _ _ _ h1) (s2, u2) (mapGet_mem _ _ _ h2) heq
  · intro st sid s0 payload now u0 hinv hget htrim
    have hmem : (s0, u0) ∈ st.users := mapGet_mem _ _ _ hget
    have hhas : mapHas st.usernameToSocketId (jsTrim payload) = true := by
      rw [htrim]
      exact hinv.2.2.1 (s0, u0) hmem
    have hne0 : ¬ jsTrim payload = "" := by
      rw [htrim]
      exact hinv.2.2.2.2 (s0, u0) hmem
    exact userJoin_conflict st sid payload now hne0 hhas
  · intro st sid now u hinv hget
    rw [disconnect_usernameMap st sid now u hget, mapHas,
      mapGet_mapDelete_self _ _ hinv.2.1]
    rfl

/-- Concrete live user for the C2/C7 witnesses. -/
def aliceW : UserRec :=
  { id := "s1", username := "alice", status := "online", activeRoom := "general",
    rooms := ["general"], lastSeen := 0 }

/-- Concrete state holding one live user `alice` on socket `s1`. -/
def stW : ServerState :=
  { initState with users := [("s1", aliceW)],
                   usernameToSocketId := [("alice", "s1")] }

theorem c2_username_uniqueness_witness :
    InvJD stW
    ∧ mapGet stW.users "s1" = some aliceW
    ∧ jsTrim "alice" = aliceW.username
    ∧ userJoin stW "s2" "alice" 5
        = (stW, { ok := false, error := some "That username is already in use" })
    ∧ mapHas (disconnect stW "s1" 6).usernameToSocketId aliceW.username = false := by
  have hInv : InvJD stW := by
    unfold InvJD keysNodup
    refine ⟨by decide, by decide, by decide, by decide, by decide⟩
  refine ⟨hInv, by decide, by decide, ?_, ?_⟩
  · exact c2_username_uniqueness.2.1 stW "s2" "s1" "alice" 5 aliceW hInv
      (by decide) (by decide)
  · exact c2_username_uniqueness.2.2 stW "s1" 6 aliceW hInv (by decide)

/-- C8: the `user_join` handler has no username length check.  Joining the
fresh server with a 25-character username succeeds and the resulting live
user holds that 25-character username, contradicting the claim that names
longer than 24 characters are rejected (the client UI caps its input at 24
characters, so the bound is clearly intended; the server-side check is
missing). -/
theorem c8_no_length_limit :
    (userJoin initState "s1" "abcdefghijklmnopqrstuvwxy" 0).2.ok = true
    ∧ ((mapGet (userJoin initState "s1" "abcdefghijklmnopqrstuvwxy" 0).1.users
          "s1").map (fun u => u.username.length)) = some 25 := by
  constructor
  · decide
  · decide

/-! ### The `leave_room` handler (claim C10) -/

/-- C10: `leave_room` checks only that the acting user resolves and the room
exists — membership is never consulted.  For any user and any existing room
(member or not) it acks `ok`, appends a `"<username> left <room.name>"`
system message to the room's log, and emits the leave fan-out
(`room_user_left` among the emitted events); when the user or the room is
missing it fails with "Unable to leave room" and leaves the state
unchanged. -/
theorem c10_leave_room (st : ServerState) (sid roomId : String) (now : Nat) :
    (∀ (user : UserRec) (room : Room),
        mapGet st.users sid = some user → mapGet st.rooms roomId = some room →
        room.id = roomId →
        (leaveRoom st sid roomId now).2.1.ok = true
        ∧ "room_user_left" ∈ (leaveRoom st sid roomId now).2.2
        ∧ ∃ msg : Message,
            msg.body = user.username ++ " left " ++ room.name
            ∧ msg.isSystem = true
            ∧ mapGet (leaveRoom st sid roomId now).1.rooms roomId
                = some { room with
                          members := setDelete room.members sid,
                          messages := trimMessages (room.messages ++ [msg])
                            MAX_ROOM_MESSAGES })
    ∧ ((mapGet st.users sid = none ∨ mapGet st.rooms roomId = none) →
        leaveRoom st sid roomId now
          = (st, { ok := false, error := some "Unable to leave room" }, [])) := by
  constructor
  · intro user room hu hr hid
    have hmsg :
        mapGet (leaveRoom st sid roomId now).1.rooms roomId
          = some { room with
                    members := setDelete room.members sid,
                    messages := trimMessages (room.messages
                        ++ [buildMessage ("uuid-" ++ toString st.nextId) now room.id
                              "System" "system"
                              (user.username ++ " left " ++ room.name) [] true false
                              none]) MAX_ROOM_MESSAGES }
          ∧ (leaveRoom st sid roomId now).2.1.ok = true
          ∧ "room_user_left" ∈ (leaveRoom st sid roomId now).2.2 := by
      unfold leaveRoom
      rw [hu, hr]
      simp only [addSystemMessage, hid, mapGet_mapSet_self, mapSet_mapSet,
        addMessageToRoom]
      by_cases hact : user.activeRoom = roomId
      · rw [if_pos hact]
        simp [mapGet_mapSet_self]
      · rw [if_neg hact]
        simp [mapGet_mapSet_self]
    exact ⟨hmsg.2.1, hmsg.2.2, _, rfl, rfl, hmsg.1⟩
  · intro hfail
    unfold leaveRoom
    rcases hfail with h | h
    · rw [h]
    · rw [h]
      cases mapGet st.users sid <;> rfl

theorem c10_leave_room_witness :
    mapGet stW.users "s1" = some aliceW
    ∧ (mapGet stW.rooms "random").isSome = true
    ∧ "s1" ∉ ((mapGet stW.rooms "random").getD emptyRoomW).members
    ∧ (leaveRoom stW "s1" "random" 7).2.1.ok = true
    ∧ "room_user_left" ∈ (leaveRoom stW "s1" "random" 7).2.2 := by
  have hr : mapGet stW.rooms "random"
      = some { id := "random", name := "Random",
               description := "Anything goes. Share memes, links, and fun stuff.",
               createdAt := 0, createdBy := "system", messages := [], members := [],
               typing := [] } := by decide
  have hres := (c10_leave_room stW "s1" "random" 7).1 aliceW _ (by decide) hr rfl
  exact ⟨by decide, by decide, by decide, hres.1, hres.2.1⟩

/-! ### The `private_message` handler (claim C7) -/

/-- The identity maps are mutually consistent: every username binding points
to a live user carrying exactly that username, and every live user's
username is bound.  This holds on every state reached by the ordinary
single-join-per-connection flow. -/
def ConsistentMaps (st : ServerState) : Prop :=
  (∀ p ∈ st.usernameToSocketId,
      (mapGet st.users p.2).map (fun u => u.username) = some p.1)
  ∧ (∀ q ∈ st.users, mapHas st.usernameToSocketId q.2.username = true)

/-- C7: with consistent identity maps, an authenticated `private_message`
send with a nonempty recipient and body fails with "Recipient is offline"
exactly when no live user holds the target username, and in that case the
state (hence the thread registry and every log) is unchanged; on success
exactly one message is appended to the canonical thread
`makeThreadKey(sender, recipient)` and its `deliveredTo` set contains both
the sender and the recipient immediately. -/
theorem c7_private_message (st : ServerState) (sid toUser body : String)
    (tempId : Option String) (now : Nat) (user : UserRec)
    (hcons : ConsistentMaps st)
    (hu : mapGet st.users sid = some user)
    (hto : toUser ≠ "")
    (hbody : jsTrim body ≠ "") :
    ((privateMessage st sid toUser body tempId now).2.ok = true
        ↔ ∃ (s' : String) (u' : UserRec),
            mapGet st.users s' = some u' ∧ u'.username = toUser)
    ∧ ((privateMessage st sid toUser body tempId now).2.ok = false →
        (privateMessage st sid toUser body tempId now).2.error
            = some "Recipient is offline"
        ∧ (privateMessage st sid toUser body tempId now).1 = st)
    ∧ ((privateMessage st sid toUser body tempId now).2.ok = true →
        ∃ (msg : Message) (t' : Thread),
          mapGet (privateMessage st sid toUser body tempId now).1.privateThreads
              (makeThreadKey user.username toUser) = some t'
          ∧ t'.messages
              = trimMessages
                  ((((mapGet st.privateThreads
                        (makeThreadKey user.username toUser)).map
                      (fun t => t.messages)).getD []) ++ [msg])
                  MAX_PRIVATE_MESSAGES
          ∧ user.username ∈ msg.deliveredTo ∧ toUser ∈ msg.deliveredTo
          ∧ msg.body = jsTrim body ∧ msg.isPrivate = true) := by
  obtain ⟨hc1, hc2⟩ := hcons
  cases hmap : mapGet st.usernameToSocketId toUser with
  | none =>
      have hnoholder : ¬ ∃ (s' : String) (u' : UserRec),
          mapGet st.users s' = some u' ∧ u'.username = toUser := by
        rintro ⟨s', u', hs', hname⟩
        have := hc2 (s', u') (mapGet_mem _ _ _ hs')
        simp only at this
        rw [hname, mapHas, hmap] at this
        exact absurd this (by simp)
      have hfail : privateMessage st sid toUser body tempId now
          = (st, { ok := false, error := some "Recipient is offline" }) := by
        unfold privateMessage
        simp only [hu, hto, hbody, hmap, if_false]
      rw [hfail]
      refine ⟨?_, ?_, ?_⟩
      · simp only [Bool.false_eq_true, false_iff]
        exact hnoholder
      · intro _
        exact ⟨rfl, rfl⟩
      · intro hok
        exact absurd hok (by simp)
  | some sid2 =>
      have hc1' := hc1 (toUser, sid2) (mapGet_mem _ _ _ hmap)
      simp only at hc1'
      cases hrec : mapGet st.users sid2 with
      | none =>
          rw [hrec] at hc1'
          exact absurd hc1' (by simp)
      | some recipient =>
          rw [hrec] at hc1'
          simp only [Option.map_some', Option.some.injEq] at hc1'
          have hok : (privateMessage st sid toUser body tempId now).2.ok = true
              ∧ ∃ (msg : Message) (t' : Thread),
                mapGet (privateMessage st sid toUser body tempId now).1.privateThreads
                    (makeThreadKey user.username toUser) = some t'
                ∧ t'.messages
                    = trimMessages
                        ((((mapGet st.privateThreads
                              (makeThreadKey user.username toUser)).map
                            (fun t => t.messages)).getD []) ++ [msg])
                        MAX_PRIVATE_MESSAGES
                ∧ user.username ∈ msg.deliveredTo ∧ toUser ∈ msg.deliveredTo
                ∧ msg.body = jsTrim body ∧ msg.isPrivate = true := by
            unfold privateMessage ensurePrivateThread
            simp only [hu, hto, hbody, hmap, hrec, hc1', if_false]
            cases hth : mapGet st.privateThreads (makeThreadKey user.username toUser) with
            | some t =>
                dsimp only
                refine ⟨by trivial, registerDelivered
                    (buildMessage ("uuid-" ++ toString st.nextId) now t.id
                      user.username user.id (jsTrim body) [] false true tempId)
                    toUser,
                  addMessageToThread t
                    (registerDelivered
                      (buildMessage ("uuid-" ++ toString st.nextId) now t.id
                        user.username user.id (jsTrim body) [] false true tempId)
                      toUser), ?_, ?_, ?_, ?_, by trivial, by trivial⟩
                · simp only [mapGet_mapSet_self]
                · simp only [hth, Option.map_some', Option.getD_some]
                  rfl
                · unfold registerDelivered buildMessage setAdd
                  simp only
                  split <;> simp
                · unfold registerDelivered buildMessage setAdd
                  simp only
                  split
                  · rename_i hmem
                    simpa using hmem
                  · simp
            | none =>
                dsimp only
                refine ⟨by trivial, registerDelivered
                    (buildMessage ("uuid-" ++ toString st.nextId) now
                      (makeThreadKey user.username toUser)
                      user.username user.id (jsTrim body) [] false true tempId)
                    toUser,
                  addMessageToThread
                    { id := makeThreadKey user.username toUser,
                      participants := [user.username, toUser], messages := [],
                      createdAt := now }
                    (registerDelivered
                      (buildMessage ("uuid-" ++ toString st.nextId) now
                        (makeThreadKey user.username toUser)
                        user.username user.id (jsTrim body) [] false true tempId)
                      toUser), ?_, ?_, ?_, ?_, by trivial, by trivial⟩
                · simp only [mapGet_mapSet_self, mapSet_mapSet]
                · simp only [hth, Option.map_none', Option.getD_none]
                  rfl
                · unfold registerDelivered buildMessage setAdd
                  simp only
                  split <;> simp
                · unfold registerDelivered buildMessage setAdd
                  simp only
                  split
                  · rename_i hmem
                    simpa using hmem
                  · simp
          refine ⟨?_, ?_, fun _ => hok.2⟩
          · rw [hok.1]
            simp only [true_iff]
            exact ⟨sid2, recipient, hrec, hc1'⟩
          · intro hfalse
            rw [hok.1] at hfalse
            exact absurd hfalse (by simp)

/-- Concrete second live user for the C7 witness. -/
def bobW : UserRec :=
  { id := "s2", username := "bob", status := "online", activeRoom := "general",
    rooms := ["general"], lastSeen := 0 }

/-- Concrete state holding live users alice and bob. -/
def stW2 : ServerState :=
  { initState with users := [("s1", aliceW), ("s2", bobW)],
                   usernameToSocketId := [("alice", "s1"), ("bob", "s2")] }

theorem c7_private_message_witness :
    ConsistentMaps stW2
    ∧ mapGet stW2.users "s1" = some aliceW
    ∧ ("bob" : String) ≠ ""
    ∧ jsTrim "hi" ≠ ""
    ∧ ((privateMessage stW2 "s1" "bob" "hi" none 3).2.ok = true
        ↔ ∃ (s' : String) (u' : UserRec),
            mapGet stW2.users s' = some u' ∧ u'.username = "bob") := by
  have hcons : ConsistentMaps stW2 := by
    unfold ConsistentMaps
    exact ⟨by decide, by decide⟩
  refine ⟨hcons, by decide, by decide, by decide, ?_⟩
  exact (c7_private_message stW2 "s1" "bob" "hi" none 3 aliceW hcons
    (by decide) (by decide) (by decide)).1

/-! ### Room-history pagination (claims C3, C4) -/

/-- `GET /api/rooms/:roomId/messages` (server.js lines 318-343).  Returns
`none` on the 404 path, otherwise the message slice, the `hasMore` flag and
the `nextCursor`.  `limit` is the query parameter after `Number(...)`
conversion (`none` = absent; `Number(limit) || 30` turns 0 into the
default 30, capped at 100); `before` is the optional cursor
(`none` = absent/empty). -/
def httpRoomMessages (st : ServerState) (roomId : String) (before : Option String)
    (limit : Option Nat) : Option (List Message × Bool × Option String) :=
  match mapGet st.rooms roomId with
  | none => none
  | some room =>
      let parsedLimit :=
        min (match limit with | none => 30 | some n => if n = 0 then 30 else n) 100
      let beforeIndex : Option Nat :=
        match before with
        | none => none
        | some b => room.messages.findIdx? (fun m => m.id == b)
      let endIndex := match beforeIndex with
        | none => room.messages.length
        | some i => i
      let startIndex := endIndex - parsedLimit
      let slice := (room.messages.drop startIndex).take (endIndex - startIndex)
      let hasMore := decide (0 < startIndex)
      let nextCursor :=
        if 0 < startIndex then (room.messages.get? (startIndex - 1)).map (fun m => m.id)
        else none
      some (slice, hasMore, nextCursor)

/-- The `request_room_history` socket handler (server.js lines 659-683).
Returns `none` on the error ack (unresolved user or unknown room),
otherwise the same triple as the HTTP endpoint. -/
def requestRoomHistory (st : ServerState) (socketId roomId : String)
    (before : Option String) (limit : Option Nat) :
    Option (List Message × Bool × Option String) :=
  match mapGet st.users socketId, mapGet st.rooms roomId with
  | some _, some room =>
      let parsedLimit :=
        min (match limit with | none => 30 | some n => if n = 0 then 30 else n) 100
      let beforeIndex : Option Nat :=
        match before with
        | none => none
        | some b => room.messages.findIdx? (fun m => m.id == b)
      let endIndex := match beforeIndex with
        | none => room.messages.length
        | some i => i
      let startIndex := endIndex - parsedLimit
      let slice := (room.messages.drop startIndex).take (endIndex - startIndex)
      let hasMore := decide (0 < startIndex)
      let nextCursor :=
        if 0 < startIndex then (room.messages.get? (startIndex - 1)).map (fun m => m.id)
        else none
      some (slice, hasMore, nextCursor)
  | _, _ => none

/-- C4: for every room and every (before, limit) pair, the HTTP endpoint and
the socket `request_room_history` handler compute identical results — same
slice, same `hasMore`, same `nextCursor` — whenever the socket path's user
resolves (the HTTP path needs no user). -/
theorem c4_http_socket_history_equal (st : ServerState) (sid roomId : String)
    (before : Option String) (limit : Option Nat) (user : UserRec)
    (hu : mapGet st.users sid = some user) :
    requestRoomHistory st sid roomId before limit
      = httpRoomMessages st roomId before limit := by
  unfold requestRoomHistory httpRoomMessages
  rw [hu]
  cases mapGet st.rooms roomId <;> rfl

theorem c4_http_socket_history_equal_witness :
    mapGet stW.users "s1" = some aliceW
    ∧ requestRoomHistory stW "s1" "general" none none
        = httpRoomMessages stW "general" none none :=
  ⟨by decide,
    c4_http_socket_history_equal stW "s1" "general" none none aliceW (by decide)⟩

/-- Repeatedly follow `nextCursor` through `request_room_history`, starting
with no cursor, collecting the returned pages (fuel-bounded). -/
def followHistory (st : ServerState) (sid roomId : String) :
    Nat → Option String → List (List Message)
  | 0, _ => []
  | Nat.succ fuel, cursor =>
      match requestRoomHistory st sid roomId cursor (some 30) with
      | none => []
      | some (slice, hasMore, nextCursor) =>
          if hasMore then slice :: followHistory st sid roomId fuel nextCursor
          else [slice]

/-- Concrete message with body "x", used for the search and pagination
scenarios. -/
def xMsg (i : Nat) : Message :=
  { plainMsg i with body := "x" }

/-- A `general` room holding 100 messages with ids "0".."99". -/
def roomC3 : Room :=
  { emptyRoomW with messages := (List.range 100).map plainMsg }

/-- State with one live user and the 100-message `general` room. -/
def stC3 : ServerState :=
  { initState with users := [("s1", aliceW)],
                   usernameToSocketId := [("alice", "s1")],
                   rooms := [("general", roomC3)] }

/-- C3: following `nextCursor` from the newest page over a 100-message log
with limit 30 yields pages covering only 97 of the 100 messages: because
`nextCursor` is the id of the message immediately *preceding* the returned
slice and the next request returns messages strictly *preceding* that
cursor, the cursor message itself (here ids "69", "38", "7") is skipped at
every page boundary.  The claim's round-trip ("each message appears exactly
once") fails; the client works around this by paginating with the id of the
oldest message it has instead of `nextCursor`. -/
theorem c3_pagination_skips_cursor :
    ((followHistory stC3 "s1" "general" 10 none).flatten.map (fun m => m.id)).length
        = 97
    ∧ "69" ∈ roomC3.messages.map (fun m => m.id)
    ∧ "69" ∉ (followHistory stC3 "s1" "general" 10 none).flatten.map (fun m => m.id) := by
  refine ⟨by decide, by decide, by decide⟩

/-! ### The search endpoint (claim C9) -/

/-- Does the first list start with the second? -/
def listStartsWith : List Char → List Char → Bool
  | _, [] => true
  | [], _ :: _ => false
  | c :: cs, d :: ds => c == d && listStartsWith cs ds

/-- JS `String.prototype.includes` over character lists. -/
def listContainsSeq : List Char → List Char → Bool
  | [], pat => pat.isEmpty
  | c :: cs, pat => listStartsWith (c :: cs) pat || listContainsSeq cs pat

/-- JS `haystack.includes(needle)`. -/
def strIncludes (s pat : String) : Bool :=
  listContainsSeq s.data pat.data

/-- JS `String.prototype.toLowerCase` (ASCII model), written over the
character list so that it evaluates inside the kernel. -/
def jsToLower (s : String) : String :=
  ⟨s.data.map Char.toLower⟩

/-- One room's contribution inside the `GET /api/search` loop
(server.js lines 357-371). -/
def searchRoomStep (term : String) (acc : List (String × String × Message))
    (r : Option Room) : List (String × String × Message) :=
  match r with
  | none => acc
  | some room =>
      acc ++ (room.messages.filter
          (fun msgItem => strIncludes (jsToLower msgItem.body) term)).map
        (fun msgItem => (room.id, room.name, msgItem))

/-- `GET /api/search` (server.js lines 345-374): case-insensitive substring
match over one room's or all rooms' message bodies, then `slice(-100)`.
`roomId`/`q` are the query parameters (`none` = absent/empty, both falsy in
the source). -/
def apiSearch (st : ServerState) (roomId : Option String) (q : Option String) :
    List (String × String × Message) :=
  match q with
  | none => []
  | some q =>
      if q = "" then []
      else
        let targetRooms : List (Option Room) :=
          match roomId with
          | some rid => [mapGet st.rooms rid]
          | none => st.rooms.map (fun p => some p.2)
        let term := jsToLower q
        let results := targetRooms.foldl (searchRoomStep term) []
        results.drop (results.length - 100)

theorem mem_searchRoomStep_foldl (rooms : List (Option Room)) (term : String)
    (acc : List (String × String × Message)) (r : String × String × Message)
    (h : r ∈ rooms.foldl (searchRoomStep term) acc) :
    r ∈ acc ∨ ∃ room : Room, some room ∈ rooms ∧ r.1 = room.id
      ∧ r.2.2 ∈ room.messages
      ∧ strIncludes (jsToLower r.2.2.body) term = true := by
  induction rooms generalizing acc with
  | nil => exact Or.inl h
  | cons o rest ih =>
      rw [List.foldl_cons] at h
      rcases ih _ h with h' | ⟨room, hmem, hid, hmsg, hmatch⟩
      · cases o with
        | none => exact Or.inl h'
        | some room =>
            unfold searchRoomStep at h'
            rcases List.mem_append.mp h' with h'' | h''
            · exact Or.inl h''
            · rcases List.mem_map.mp h'' with ⟨m, hm, hr⟩
              have hfil := List.mem_filter.mp hm
              refine Or.inr ⟨room, List.mem_cons_self _ _, ?_, ?_, ?_⟩
              · rw [← hr]
              · rw [← hr]
                exact hfil.1
              · rw [← hr]
                exact hfil.2
      · exact Or.inr ⟨room, List.mem_cons_of_mem _ hmem, hid, hmsg, hmatch⟩

/-- C9 (amended): every entry returned by `GET /api/search` matches the
query case-insensitively and (with a room filter) belongs to the matched
room; at most 100 entries are returned, and they are the *last* 100 of the
match list accumulated in room-registry order then log order — within a
single room this is the most recent 100 matches, but across rooms the
result is not in general the 100 most recent matches. -/
theorem c9_search_amended (st : ServerState) (roomId : Option String) (q : String)
    (hq : q ≠ "") :
    (∀ r ∈ apiSearch st roomId (some q),
        strIncludes (jsToLower r.2.2.body) (jsToLower q) = true)
    ∧ (apiSearch st roomId (some q)).length ≤ 100
    ∧ (∀ (rid : String) (room : Room), roomId = some rid →
        mapGet st.rooms rid = some room →
        (∀ r ∈ apiSearch st roomId (some q), r.1 = room.id ∧ r.2.2 ∈ room.messages)
        ∧ apiSearch st roomId (some q)
            = (let found := (room.messages.filter
                  (fun msgItem => strIncludes (jsToLower msgItem.body) (jsToLower q))).map
                  (fun msgItem => (room.id, room.name, msgItem));
               found.drop (found.length - 100))) := by
  have happly : apiSearch st roomId (some q)
      = (let targetRooms : List (Option Room) :=
          match roomId with
          | some rid => [mapGet st.rooms rid]
          | none => st.rooms.map (fun p => some p.2)
         let results := targetRooms.foldl (searchRoomStep (jsToLower q)) []
         results.drop (results.length - 100)) := by
    unfold apiSearch
    dsimp only
    rw [if_neg hq]
  refine ⟨?_, ?_, ?_⟩
  · intro r hr
    rw [happly] at hr
    have hdrop := List.mem_of_mem_drop hr
    rcases mem_searchRoomStep_foldl _ _ _ _ hdrop with h' | ⟨_, _, _, _, hmatch⟩
    · cases h'
    · exact hmatch
  · rw [happly]
    simp only [List.length_drop]
    omega
  · intro rid room hrid hroom
    constructor
    · intro r hr
      rw [happly, hrid] at hr
      have hdrop := List.mem_of_mem_drop hr
      rcases mem_searchRoomStep_foldl _ _ _ _ hdrop with h' | ⟨room', hmem, hid, hmsg, _⟩
      · cases h'
      · have : room' = room := by
          rcases List.mem_cons.mp hmem with h'' | h''
          · rw [hroom] at h''
            exact Option.some_inj.mp h''
          · cases h''
        rw [this] at hid hmsg
        exact ⟨hid, hmsg⟩
    · rw [happly, hrid]
      dsimp only
      rw [hroom]
      simp only [List.foldl_cons, List.foldl_nil, searchRoomStep, List.nil_append]

/-- The `general` room holding one matching message newer than everything in
`random` (timestamp 100). -/
def roomG9 : Room :=
  { emptyRoomW with messages := [xMsg 100] }

/-- The `random` room holding 100 matching messages with timestamps 0..99. -/
def roomR9 : Room :=
  { id := "random", name := "Random", description := "", createdAt := 0,
    createdBy := "system", messages := (List.range 100).map xMsg,
    members := [], typing := [] }

/-- State for the C9 counterexample: 101 matching messages across two
rooms. -/
def stC9 : ServerState :=
  { initState with rooms := [("general", roomG9), ("random", roomR9)] }

/-- C9 (counterexample): searching all rooms for "x" over `stC9` returns the
100 `random`-room matches with timestamps 0..99 and drops the `general`-room
match with timestamp 100 — even though that message matches the query and is
the most recent match of all.  The returned set is therefore not the 100
most recent matching messages, refuting the claim as stated. -/
theorem c9_search_counterexample :
    ((apiSearch stC9 none (some "x")).map (fun r => r.2.2.timestamp))
        = List.range 100
    ∧ strIncludes (jsToLower (xMsg 100).body) (jsToLower "x") = true
    ∧ (xMsg 100).timestamp = 100
    ∧ (xMsg 100) ∈ roomG9.messages
    ∧ 100 ∉ (apiSearch stC9 none (some "x")).map (fun r => r.2.2.timestamp) := by
  refine ⟨by decide, by decide, by decide, by decide, by decide⟩

theorem c9_search_amended_witness :
    ("x" : String) ≠ ""
    ∧ ∀ r ∈ apiSearch stC9 (some "random") (some "x"),
        strIncludes (jsToLower r.2.2.body) (jsToLower "x") = true :=
  ⟨by decide, (c9_search_amended stC9 (some "random") "x" (by decide)).1⟩

end Chat
